import Mathlib

/-!
Verification of the SIP (systematic investment plan) simulator in `main.py`.

The core pipeline is embedded shallowly:
* calendar helpers (`calendar.monthrange`, leap years, `datetime` ordering);
* `generate_sip_dates` (schedule generation with month-length clamping);
* the forward price lookup `nav_data.loc[sip_date:]` (price resolver);
* the investment-processing loop (accumulation fold over the schedule);
* final valuation `nav_data.loc[:end_period_date]` with fallback;
* the XIRR preparation (monotonicity check, sort) and the CAGR guards.

Numbers are modelled by exact rationals `ℚ` (the Python floats, idealized);
the CAGR value, which uses a real power `x ** (1/years)`, lives in `ℝ`.
Dates are `(year, month, day)` triples; Python `datetime` comparison is
chronological, which on valid dates coincides with lexicographic comparison
of the triple, embedded here through the injective key
`year * 10000 + month * 100 + day`.
-/

/-- A calendar date, as Python `datetime` restricted to (year, month, day). -/
structure Date where
  year : Nat
  month : Nat
  day : Nat
deriving DecidableEq, Repr

/-- Injective numeric key whose order is the chronological order of valid
dates (month ≤ 12 < 100, day ≤ 31 < 100). -/
def Date.key (d : Date) : Nat := d.year * 10000 + d.month * 100 + d.day

/-- Python `datetime` comparison `d1 <= d2` (chronological). -/
def dateLe (a b : Date) : Bool := a.key ≤ b.key

/-- Python `datetime` comparison `d1 < d2` (chronological). -/
def dateLt (a b : Date) : Bool := a.key < b.key

/-- Gregorian leap-year rule, as used by Python `calendar`. -/
def isLeap (y : Nat) : Bool := (y % 4 == 0 && y % 100 != 0) || y % 400 == 0

/-- `calendar.monthrange(year, month)[1]`: the number of days in the month
(source `get_last_day_of_month`, main.py lines 29-31). -/
def monthrange (y m : Nat) : Nat :=
  if m == 2 then (if isLeap y then 29 else 28)
  else if m == 4 || m == 6 || m == 9 || m == 11 then 30
  else 31

/-- One iteration of the loop body of `generate_sip_dates` (main.py lines
43-46): `current_date += relativedelta(months=1)` followed by
`current_date.replace(day=min(day, last_day_next_month))`.  The `replace`
overwrites whatever day `relativedelta` produced, so the net effect is:
advance the month by one and set the day to `min(targetDay, monthrange)`. -/
def nextSipDate (d : Date) (targetDay : Nat) : Date :=
  let y := if d.month == 12 then d.year + 1 else d.year
  let m := if d.month == 12 then 1 else d.month + 1
  ⟨y, m, min targetDay (monthrange y m)⟩

/-- The `while current_date <= end_target_date` loop of `generate_sip_dates`
(main.py lines 41-47), with explicit fuel.  Each iteration strictly advances
the month, so any fuel at least the number of months between the bounds
makes the result independent of the fuel. -/
def genDatesAux (fuel : Nat) (cur endTarget : Date) (targetDay : Nat) : List Date :=
  match fuel with
  | 0 => []
  | fuel + 1 =>
    if dateLe cur endTarget then
      cur :: genDatesAux fuel (nextSipDate cur targetDay) endTarget targetDay
    else []

/-- `generate_sip_dates(start_year, start_month, end_year, end_month, day)`
(main.py lines 33-47). -/
def generate_sip_dates (sy sm ey em day : Nat) : List Date :=
  let startDay := min day (monthrange sy sm)
  let cur : Date := ⟨sy, sm, startDay⟩
  let endTarget : Date := ⟨ey, em, min day (monthrange ey em)⟩
  genDatesAux ((ey + 2) * 12) cur endTarget day

/-- Forward price lookup, `nav_data.loc[sip_date:]` followed by `iloc[0]`
(main.py lines 131-134): the first entry of the (sorted) series whose date
is on or after the requested date; `none` models the empty-slice branch
(lines 135-137), where the date is skipped. -/
def resolveNav (series : List (Date × ℚ)) (d : Date) : Option (Date × ℚ) :=
  series.find? (fun p => dateLe d p.1)

/-- One row of `monthly_performance_data` (main.py lines 180-187). -/
structure PerfRecord where
  investmentDate : Date
  nav : ℚ
  unitsBought : ℚ
  totalUnits : ℚ
  valueAfterSip : ℚ
  periodReturnPct : ℚ
deriving DecidableEq, Repr

/-- The mutable loop state of the investment-processing loop
(main.py lines 117-123). -/
structure SipState where
  total_units : ℚ
  total_investment : ℚ
  transactions : List (Date × ℚ)
  processed_investments : Nat
  monthly : List PerfRecord
  last_value_after_sip : ℚ
  first_investment_date : Option Date
deriving DecidableEq, Repr

/-- The state before the loop (main.py lines 117-123). -/
def initState : SipState :=
  ⟨0, 0, [], 0, [], 0, none⟩

/-- One iteration of `for sip_date in sip_dates` (main.py lines 126-190).
A failed lookup (no entry on or after the date) or an invalid NAV
(`nav <= 0`; `NaN` cannot arise over exact rationals) skips the date,
leaving the state unchanged.  Otherwise units are bought, totals updated,
the transaction appended, and a performance record emitted; the period
return defaults to `0` and is overwritten with the mark-to-market formula
only when this is not the first processed investment and the previous
post-SIP value is positive (lines 174-177; note `processed_investments`
was already incremented at line 163, so the check `> 1` reads the count
including the current trade). -/
def processSipDate (series : List (Date × ℚ)) (amount : ℚ)
    (st : SipState) (sipDate : Date) : SipState :=
  match resolveNav series sipDate with
  | none => st
  | some (actualDate, nav) =>
    if nav ≤ 0 then st
    else
      let units_bought := amount / nav
      let value_before_investment := st.total_units * nav
      let total_units := st.total_units + units_bought
      let total_investment := st.total_investment + amount
      let processed := st.processed_investments + 1
      let value_after_investment := total_units * nav
      let fid := match st.first_investment_date with
        | none => some actualDate
        | some d0 => some d0
      let period_return_pct :=
        if 1 < processed ∧ 0 < st.last_value_after_sip then
          (value_before_investment - st.last_value_after_sip) /
            st.last_value_after_sip * 100
        else 0
      { total_units := total_units
        total_investment := total_investment
        transactions := st.transactions ++ [(actualDate, -amount)]
        processed_investments := processed
        monthly := st.monthly ++
          [⟨actualDate, nav, units_bought, total_units,
            value_after_investment, period_return_pct⟩]
        last_value_after_sip := value_after_investment
        first_investment_date := fid }

/-- The whole investment-processing loop (main.py lines 126-190). -/
def runSip (series : List (Date × ℚ)) (amount : ℚ)
    (st : SipState) (sipDates : List Date) : SipState :=
  sipDates.foldl (processSipDate series amount) st

/-- Final-valuation lookup (main.py lines 199-216):
`nav_data.loc[:end_period_date]` keeps the entries dated on or before the
end-of-period date and `iloc[-1:]` takes the last of them; when that slice
is empty the code falls back to the very last record of the series, and
with an empty series it aborts (`none`). -/
def finalNavEntry (series : List (Date × ℚ)) (endDate : Date) :
    Option (Date × ℚ) :=
  match (series.filter (fun p => dateLe p.1 endDate)).getLast? with
  | some e => some e
  | none => series.getLast?

/-- The data the run produces before the return metrics
(main.py lines 192-223). -/
structure SipResult where
  total_units : ℚ
  total_investment : ℚ
  processed_investments : Nat
  monthly : List PerfRecord
  final_nav_date : Date
  final_nav : ℚ
  final_value : ℚ
  transactions : List (Date × ℚ)
  first_investment_date : Option Date
deriving DecidableEq, Repr

/-- The core run (main.py lines 110-223): generate the schedule, fold the
investment loop over it, and value the holdings at the last NAV on or
before the last day of the configured end month.  `none` models the three
`exit()` paths: no SIP dates, no processed investments, or an empty series
at final valuation.  The input `series` is the prepared NAV table (sorted
by date; loading, validity filtering and the ±7-day date-range filter of
lines 55-101 belong to the external loader). -/
def runSipProgram (series : List (Date × ℚ)) (amount : ℚ)
    (sy sm ey em day : Nat) : Option SipResult :=
  let sipDates := generate_sip_dates sy sm ey em day
  if sipDates.isEmpty then none
  else
    let st := runSip series amount initState sipDates
    if st.processed_investments = 0 then none
    else
      let end_period_date : Date := ⟨ey, em, monthrange ey em⟩
      match finalNavEntry series end_period_date with
      | none => none
      | some (final_nav_date, final_nav) =>
        let final_value := st.total_units * final_nav
        some
          { total_units := st.total_units
            total_investment := st.total_investment
            processed_investments := st.processed_investments
            monthly := st.monthly
            final_nav_date := final_nav_date
            final_nav := final_nav
            final_value := final_value
            transactions := st.transactions ++ [(final_nav_date, final_value)]
            first_investment_date := st.first_investment_date }

/-- The monotonicity test on the XIRR dates (main.py line 238):
`all(dates[i] <= dates[i+1])`. -/
def datesMonotone : List (Date × ℚ) → Bool
  | [] => true
  | [_] => true
  | a :: b :: rest => dateLe a.1 b.1 && datesMonotone (b :: rest)

/-- Python tuple comparison on `(date, amount)` pairs, as used by
`sorted(zip(dates_for_xirr, amounts))` (main.py line 240): dates compare
chronologically, ties broken by the amount. -/
def txLe (a b : Date × ℚ) : Bool :=
  dateLt a.1 b.1 || (a.1.key == b.1.key && decide (a.2 ≤ b.2))

/-- The ledger actually handed to the solver (main.py lines 238-242):
unchanged when the dates are already monotone, otherwise
`sorted(zip(dates, amounts))` — a sort of the (date, amount) pairs. -/
def normalizeLedger (tx : List (Date × ℚ)) : List (Date × ℚ) :=
  if datesMonotone tx then tx else tx.mergeSort txLe

/-- The guard at main.py line 235: the solver is invoked (the attempt is
made) only when the ledger holds more than one cash flow; the value is the
ledger as normalized at lines 238-242. -/
def xirrInput (tx : List (Date × ℚ)) : Option (List (Date × ℚ)) :=
  if 1 < tx.length then some (normalizeLedger tx) else none

/-- The reported XIRR (main.py lines 230-252), abstracting the external
root finder `pyxirr.xirr` as `solve`: `none` from the solver stands for a
raised error or a `None` return (non-convergence) — either way the
`except` handlers leave `annualized_return_xirr = None` ("could not be
calculated"); a found rate is scaled by 100 at line 244. -/
def xirrResult (solve : List (Date × ℚ) → Option ℚ)
    (tx : List (Date × ℚ)) : Option ℚ :=
  match xirrInput tx with
  | none => none
  | some l =>
    match solve l with
    | none => none
    | some r => some (r * 100)

/-- Days from 1970-01-01 (rata die shifted to the Unix epoch), the standard
civil-from-date computation; Python `(d2 - d1).days` is
`toRD d2 - toRD d1`. -/
def toRD (d : Date) : Int :=
  let y : Int := if d.month ≤ 2 then (d.year : Int) - 1 else (d.year : Int)
  let m : Int := (d.month : Int)
  let era : Int := y / 400
  let yoe : Int := y - era * 400
  let doy : Int := (153 * (if 2 < d.month then m - 3 else m + 9) + 2) / 5
    + (d.day : Int) - 1
  let doe : Int := yoe * 365 + yoe / 4 - yoe / 100 + doy
  era * 146097 + doe - 719468

/-- `investment_duration_years` (main.py lines 256-257):
`(final_nav_date - first_investment_date).days / 365.25`. -/
def investmentDurationYears (first final : Date) : ℚ :=
  ((toRD final - toRD first : Int) : ℚ) / (1461 / 4)

/-- The simplified CAGR (main.py lines 254-269).  Computed only when a first
investment exists, `total_investment > 0`, `final_value > 0` (line 255) and
the duration in years is positive (line 259); every other path leaves
`cagr = None` ("could not be calculated"), printing a note rather than
raising.  The float power `** (1/years)` is idealized as `Real.rpow`. -/
noncomputable def cagr (total_investment final_value : ℚ)
    (first_investment_date : Option Date) (final_nav_date : Date) :
    Option ℝ :=
  match first_investment_date with
  | none => none
  | some fd =>
    if 0 < total_investment ∧ 0 < final_value then
      if 0 < investmentDurationYears fd final_nav_date then
        some ((Real.rpow ((final_value : ℝ) / (total_investment : ℝ))
          (((investmentDurationYears fd final_nav_date : ℚ) : ℝ))⁻¹ - 1) * 100)
      else none
    else none

/-- Every month has at most 31 days. -/
theorem monthrange_le (y m : Nat) : monthrange y m ≤ 31 := by
  unfold monthrange
  split_ifs <;> omega

/-- Advancing the schedule cursor strictly increases the date: the month
index grows by one and the day stays below 100. -/
theorem dateLt_nextSipDate (d : Date) (t : Nat) (hd : d.day ≤ 31) :
    dateLt d (nextSipDate d t) = true := by
  have hmr : ∀ y m, min t (monthrange y m) ≤ 31 :=
    fun y m => le_trans (min_le_right _ _) (monthrange_le _ _)
  unfold nextSipDate dateLt Date.key
  by_cases h : d.month = 12
  · have h31 := hmr (d.year + 1) 1
    simp only [h, beq_self_eq_true, if_true, decide_eq_true_eq]
    omega
  · have h31 := hmr d.year (d.month + 1)
    simp only [beq_iff_eq, h, if_false, decide_eq_true_eq]
    omega

/-- Advancing the schedule cursor moves the month index up by exactly one
calendar month. -/
theorem nextSipDate_monthIdx (d : Date) (t : Nat) :
    (nextSipDate d t).year * 12 + (nextSipDate d t).month =
      d.year * 12 + d.month + 1 := by
  unfold nextSipDate
  by_cases h : d.month = 12
  · simp only [h, beq_self_eq_true, if_true]
    omega
  · simp only [beq_iff_eq, h, if_false]
    omega

/-- The generator loop emits the cursor first, when it emits anything. -/
theorem genDatesAux_head (fuel : Nat) (cur endT : Date) (t : Nat) :
    ∀ b ∈ (genDatesAux fuel cur endT t).head?, b = cur := by
  cases fuel with
  | zero => simp [genDatesAux]
  | succ n =>
    simp only [genDatesAux]
    split
    · simp
    · simp

/-- Every date the generator loop emits carries the clamped day
`min targetDay (days in its month)`, provided the cursor does. -/
theorem genDatesAux_day (fuel : Nat) :
    ∀ cur endT, ∀ t : Nat, cur.day = min t (monthrange cur.year cur.month) →
    ∀ e ∈ genDatesAux fuel cur endT t, e.day = min t (monthrange e.year e.month) := by
  induction fuel with
  | zero => intro cur endT t hc e he; simp [genDatesAux] at he
  | succ n ih =>
    intro cur endT t hc e he
    simp only [genDatesAux] at he
    split at he
    · rcases List.mem_cons.mp he with rfl | htl
      · exact hc
      · exact ih (nextSipDate cur t) endT t rfl e htl
    · simp at he

/-- The generator loop emits a strictly increasing list whenever the cursor
day is at most 31 (which clamping maintains). -/
theorem genDatesAux_chain (fuel : Nat) :
    ∀ cur endT, ∀ t : Nat, cur.day ≤ 31 →
    List.Chain' (fun a b => dateLt a b = true) (genDatesAux fuel cur endT t) := by
  induction fuel with
  | zero => intro cur endT t hd; simp [genDatesAux]
  | succ n ih =>
    intro cur endT t hd
    simp only [genDatesAux]
    split
    · rw [List.chain'_cons']
      constructor
      · intro b hb
        have hb2 := genDatesAux_head n (nextSipDate cur t) endT t b hb
        subst hb2
        exact dateLt_nextSipDate cur t hd
      · exact ih (nextSipDate cur t) endT t
          (le_trans (min_le_right _ _) (monthrange_le _ _))
    · exact List.chain'_nil

/-- The generator loop advances by exactly one calendar month between
consecutive entries. -/
theorem genDatesAux_month_step (fuel : Nat) :
    ∀ cur endT, ∀ t : Nat,
    List.Chain' (fun a b => b.year * 12 + b.month = a.year * 12 + a.month + 1)
      (genDatesAux fuel cur endT t) := by
  induction fuel with
  | zero => intro cur endT t; simp [genDatesAux]
  | succ n ih =>
    intro cur endT t
    simp only [genDatesAux]
    split
    · rw [List.chain'_cons']
      constructor
      · intro b hb
        have hb2 := genDatesAux_head n (nextSipDate cur t) endT t b hb
        subst hb2
        exact nextSipDate_monthIdx cur t
      · exact ih (nextSipDate cur t) endT t
    · exact List.chain'_nil

/-- C5: the Schedule Generator, for start=(2022,3), end=(2023,2),
targetDay=1, produces exactly the 12 dates 2022-03-01 … 2023-02-01, each
one calendar month after the previous; and in general the generated
schedule is strictly increasing (and advances the calendar month by
exactly one between consecutive entries). -/
theorem schedule_generator_correct :
    (generate_sip_dates 2022 3 2023 2 1 =
      [⟨2022,3,1⟩, ⟨2022,4,1⟩, ⟨2022,5,1⟩, ⟨2022,6,1⟩, ⟨2022,7,1⟩, ⟨2022,8,1⟩,
       ⟨2022,9,1⟩, ⟨2022,10,1⟩, ⟨2022,11,1⟩, ⟨2022,12,1⟩, ⟨2023,1,1⟩, ⟨2023,2,1⟩]) ∧
    (∀ sy sm ey em day, List.Chain' (fun a b => dateLt a b = true)
      (generate_sip_dates sy sm ey em day)) ∧
    (∀ sy sm ey em day, List.Chain'
      (fun a b => b.year * 12 + b.month = a.year * 12 + a.month + 1)
      (generate_sip_dates sy sm ey em day)) := by
  refine ⟨by decide, fun sy sm ey em day => ?_, fun sy sm ey em day => ?_⟩
  · exact genDatesAux_chain _ _ _ day (le_trans (min_le_right _ _) (monthrange_le _ _))
  · exact genDatesAux_month_step _ _ _ day

/-- C6: with targetDay=31 the schedule yields 2024-04-30 for April and
reverts to 2024-05-31 in May; in general every generated entry's
day-of-month equals `min(targetDay, days in that month)` — the clamp does
not drift. -/
theorem schedule_month_end_clamp :
    (generate_sip_dates 2024 3 2024 5 31 =
      [⟨2024,3,31⟩, ⟨2024,4,30⟩, ⟨2024,5,31⟩]) ∧
    ∀ sy sm ey em day, ∀ e ∈ generate_sip_dates sy sm ey em day,
      e.day = min day (monthrange e.year e.month) := by
  refine ⟨by decide, fun sy sm ey em day e he => ?_⟩
  exact genDatesAux_day _ _ _ day rfl e he

/-- The prepared series is sorted by date (main.py line 96,
`nav_data.sort_index()`): pairwise non-decreasing dates. -/
def seriesSorted (s : List (Date × ℚ)) : Prop :=
  s.Pairwise (fun a b => dateLe a.1 b.1 = true)

instance (s : List (Date × ℚ)) : Decidable (seriesSorted s) :=
  inferInstanceAs (Decidable (s.Pairwise _))

/-- `dateLe` is reflexive. -/
theorem dateLe_refl (a : Date) : dateLe a a = true := by
  simp [dateLe]

/-- `dateLe` is transitive. -/
theorem dateLe_trans {a b c : Date} (h1 : dateLe a b = true)
    (h2 : dateLe b c = true) : dateLe a c = true := by
  simp only [dateLe, decide_eq_true_eq] at *
  omega

/-- On a sorted series, the forward lookup returns an entry on or after the
requested date that is the earliest such entry. -/
theorem resolveNav_sorted_min (series : List (Date × ℚ)) (d : Date)
    (e : Date × ℚ) (hs : seriesSorted series)
    (h : resolveNav series d = some e) :
    dateLe d e.1 = true ∧ e ∈ series ∧
      ∀ x ∈ series, dateLe d x.1 = true → dateLe e.1 x.1 = true := by
  have h2 : List.find? (fun p => dateLe d p.1) series = some e := h
  refine ⟨by simpa using List.find?_some h2, List.mem_of_find?_eq_some h2, ?_⟩
  induction series with
  | nil => simp [resolveNav] at h
  | cons hd tl ih =>
    intro x hx hdx
    rw [seriesSorted, List.pairwise_cons] at hs
    by_cases hp : dateLe d hd.1 = true
    · simp only [List.find?, hp] at h2
      have he : e = hd := (Option.some.inj h2).symm
      subst he
      rcases List.mem_cons.mp hx with rfl | hxtl
      · exact dateLe_refl _
      · exact hs.1 x hxtl
    · have hp2 : dateLe d hd.1 = false := by
        simpa using hp
      simp only [List.find?, hp2] at h2
      rcases List.mem_cons.mp hx with rfl | hxtl
      · exact absurd hdx hp
      · exact ih hs.2 h2 h2 x hxtl hdx

/-- A failed lookup leaves the loop state untouched and the loop moves on
to the remaining dates. -/
theorem runSip_skip (series : List (Date × ℚ)) (A : ℚ) (st : SipState)
    (d : Date) (rest : List Date) (h : resolveNav series d = none) :
    runSip series A st (d :: rest) = runSip series A st rest := by
  simp [runSip, List.foldl_cons, processSipDate, h]

/-- C3: price resolution returns the first entry of the sorted series with
date on or after the requested date; it fails exactly when no such entry
exists, and a failed date is skipped (the run continues with the remaining
dates) rather than fatal.  On the series [(2022-03-03, 100),
(2022-03-10, 105)], resolving 2022-03-01 gives (2022-03-03, 100) and
resolving 2022-03-15 fails. -/
theorem price_resolver_correct :
    (∀ series d e, seriesSorted series → resolveNav series d = some e →
      dateLe d e.1 = true ∧ e ∈ series ∧
        ∀ x ∈ series, dateLe d x.1 = true → dateLe e.1 x.1 = true) ∧
    (∀ series d, resolveNav series d = none ↔
      ∀ x ∈ series, ¬ dateLe d x.1 = true) ∧
    (∀ series A st d rest, resolveNav series d = none →
      runSip series A st (d :: rest) = runSip series A st rest) ∧
    resolveNav [(⟨2022,3,3⟩, 100), (⟨2022,3,10⟩, 105)] ⟨2022,3,1⟩ =
      some (⟨2022,3,3⟩, 100) ∧
    resolveNav [(⟨2022,3,3⟩, 100), (⟨2022,3,10⟩, 105)] ⟨2022,3,15⟩ = none := by
  refine ⟨resolveNav_sorted_min, fun series d => List.find?_eq_none,
    runSip_skip, by decide, by decide⟩

/-- Witness for C3 at the series and dates of the spec example. -/
theorem price_resolver_correct_witness :
    seriesSorted [(⟨2022,3,3⟩, (100:ℚ)), (⟨2022,3,10⟩, 105)] ∧
    (dateLe ⟨2022,3,1⟩ (⟨2022,3,3⟩ : Date) = true ∧
      ((⟨2022,3,3⟩ : Date), (100:ℚ)) ∈
        [((⟨2022,3,3⟩ : Date), (100:ℚ)), (⟨2022,3,10⟩, 105)] ∧
      ∀ x ∈ [((⟨2022,3,3⟩ : Date), (100:ℚ)), (⟨2022,3,10⟩, 105)],
        dateLe ⟨2022,3,1⟩ x.1 = true → dateLe ⟨2022,3,3⟩ x.1 = true) :=
  ⟨by decide, price_resolver_correct.1
    [(⟨2022,3,3⟩, (100:ℚ)), (⟨2022,3,10⟩, 105)] ⟨2022,3,1⟩
    (⟨2022,3,3⟩, (100:ℚ)) (by decide) (by decide)⟩

/-- A date with no entry on or after it is skipped: no state change. -/
theorem processSipDate_none (series : List (Date × ℚ)) (A : ℚ)
    (st : SipState) (d : Date) (hnav : resolveNav series d = none) :
    processSipDate series A st d = st := by
  simp [processSipDate, hnav]

/-- A date resolving to a non-positive NAV is skipped: no state change. -/
theorem processSipDate_nonpos (series : List (Date × ℚ)) (A : ℚ)
    (st : SipState) (d ad : Date) (nav : ℚ)
    (hnav : resolveNav series d = some (ad, nav)) (h : nav ≤ 0) :
    processSipDate series A st d = st := by
  simp [processSipDate, hnav, h]

/-- A date resolving to a positive NAV executes a trade; this spells out
every field of the post-trade state. -/
theorem processSipDate_pos (series : List (Date × ℚ)) (A : ℚ)
    (st : SipState) (d ad : Date) (nav : ℚ)
    (hnav : resolveNav series d = some (ad, nav)) (h : ¬ nav ≤ 0) :
    processSipDate series A st d =
      { total_units := st.total_units + A / nav
        total_investment := st.total_investment + A
        transactions := st.transactions ++ [(ad, -A)]
        processed_investments := st.processed_investments + 1
        monthly := st.monthly ++
          [⟨ad, nav, A / nav, st.total_units + A / nav,
            (st.total_units + A / nav) * nav,
            if 1 < st.processed_investments + 1 ∧ 0 < st.last_value_after_sip
            then (st.total_units * nav - st.last_value_after_sip) /
              st.last_value_after_sip * 100
            else 0⟩]
        last_value_after_sip := (st.total_units + A / nav) * nav
        first_investment_date := match st.first_investment_date with
          | none => some ad
          | some d0 => some d0 } := by
  simp [processSipDate, hnav, h]

/-- The prices at which the loop actually buys: one entry per schedule date
that resolves forward to a positive NAV (the successful trades, in order). -/
def executedNavs (series : List (Date × ℚ)) (dates : List Date) : List ℚ :=
  dates.filterMap (fun d =>
    match resolveNav series d with
    | none => none
    | some (_, nav) => if nav ≤ 0 then none else some nav)

theorem executedNavs_cons_none (series : List (Date × ℚ)) (d : Date)
    (rest : List Date) (hnav : resolveNav series d = none) :
    executedNavs series (d :: rest) = executedNavs series rest := by
  simp [executedNavs, hnav]

theorem executedNavs_cons_nonpos (series : List (Date × ℚ)) (d ad : Date)
    (nav : ℚ) (rest : List Date)
    (hnav : resolveNav series d = some (ad, nav)) (h : nav ≤ 0) :
    executedNavs series (d :: rest) = executedNavs series rest := by
  simp [executedNavs, hnav, h]

theorem executedNavs_cons_pos (series : List (Date × ℚ)) (d ad : Date)
    (nav : ℚ) (rest : List Date)
    (hnav : resolveNav series d = some (ad, nav)) (h : ¬ nav ≤ 0) :
    executedNavs series (d :: rest) = nav :: executedNavs series rest := by
  simp [executedNavs, hnav, h]

/-- Folding the loop over any schedule adds `(number of trades) * amount`
to the invested total, the corresponding unit purchases to the unit total,
and the number of trades to the processed count. -/
theorem runSip_totals (series : List (Date × ℚ)) (A : ℚ) :
    ∀ dates st,
      (runSip series A st dates).total_investment =
        st.total_investment + ((executedNavs series dates).length : ℚ) * A ∧
      (runSip series A st dates).total_units =
        st.total_units + ((executedNavs series dates).map (fun p => A / p)).sum ∧
      (runSip series A st dates).processed_investments =
        st.processed_investments + (executedNavs series dates).length := by
  intro dates
  induction dates with
  | nil => intro st; simp [runSip, executedNavs]
  | cons d rest ih =>
    intro st
    simp only [runSip] at ih
    rw [runSip, List.foldl_cons]
    rcases hnav : resolveNav series d with _ | ⟨ad, nav⟩
    · rw [processSipDate_none series A st d hnav,
        executedNavs_cons_none series d rest hnav]
      exact ih st
    · by_cases hle : nav ≤ 0
      · rw [processSipDate_nonpos series A st d ad nav hnav hle,
          executedNavs_cons_nonpos series d ad nav rest hnav hle]
        exact ih st
      · rw [processSipDate_pos series A st d ad nav hnav hle,
          executedNavs_cons_pos series d ad nav rest hnav hle]
        refine ⟨?_, ?_, ?_⟩
        · rw [(ih _).1]
          simp only [List.length_cons]
          push_cast
          ring
        · rw [(ih _).2.1]
          simp only [List.map_cons, List.sum_cons]
          ring
        · rw [(ih _).2.2]
          simp only [List.length_cons]
          omega

/-- A single loop transition never decreases units, invested capital or the
trade count (for a non-negative contribution amount; an executed NAV is
positive by the guard at main.py line 152). -/
theorem processSipDate_mono (series : List (Date × ℚ)) (A : ℚ)
    (st : SipState) (d : Date) (hA : 0 ≤ A) :
    st.total_units ≤ (processSipDate series A st d).total_units ∧
    st.total_investment ≤ (processSipDate series A st d).total_investment ∧
    st.processed_investments ≤ (processSipDate series A st d).processed_investments := by
  rcases hnav : resolveNav series d with _ | ⟨ad, nav⟩
  · rw [processSipDate_none series A st d hnav]
    exact ⟨le_refl _, le_refl _, le_refl _⟩
  · by_cases hle : nav ≤ 0
    · rw [processSipDate_nonpos series A st d ad nav hnav hle]
      exact ⟨le_refl _, le_refl _, le_refl _⟩
    · rw [processSipDate_pos series A st d ad nav hnav hle]
      refine ⟨?_, ?_, ?_⟩
      · have : 0 ≤ A / nav := div_nonneg hA (le_of_lt (lt_of_not_le hle))
        simp only
        linarith
      · simp only
        linarith
      · simp only
        omega

/-- C2: after any prefix of the run with N successful trades the invested
total is exactly N times the contribution amount, the unit total is exactly
the sum of `amount / price_i` over the executed trades, and the processed
count is N; and each of the three is non-decreasing across every loop
transition (for a non-negative contribution amount — the executed price is
positive by the loop's own guard). -/
theorem accumulation_invariant :
    (∀ series A dates,
      (runSip series A initState dates).total_investment =
        ((executedNavs series dates).length : ℚ) * A ∧
      (runSip series A initState dates).total_units =
        ((executedNavs series dates).map (fun p => A / p)).sum ∧
      (runSip series A initState dates).processed_investments =
        (executedNavs series dates).length) ∧
    (∀ series A st d, 0 ≤ A →
      st.total_units ≤ (processSipDate series A st d).total_units ∧
      st.total_investment ≤ (processSipDate series A st d).total_investment ∧
      st.processed_investments ≤
        (processSipDate series A st d).processed_investments) := by
  constructor
  · intro series A dates
    have h := runSip_totals series A dates initState
    simpa [initState] using h
  · intro series A st d hA
    exact processSipDate_mono series A st d hA

/-- Witness for C2's monotonicity clause at a concrete transition. -/
theorem accumulation_invariant_witness :
    (0:ℚ) ≤ 10000 ∧
    (initState.total_units ≤
      (processSipDate [(⟨2022,3,3⟩, 100)] 10000 initState ⟨2022,3,1⟩).total_units ∧
    initState.total_investment ≤
      (processSipDate [(⟨2022,3,3⟩, 100)] 10000 initState ⟨2022,3,1⟩).total_investment ∧
    initState.processed_investments ≤
      (processSipDate [(⟨2022,3,3⟩, 100)] 10000 initState ⟨2022,3,1⟩).processed_investments) :=
  ⟨by norm_num,
    accumulation_invariant.2 [(⟨2022,3,3⟩, 100)] 10000 initState ⟨2022,3,1⟩
      (by norm_num)⟩

/-- The period-return reporting as the specification words it (PerformanceRecord
in the data model; accumulation step 5): a numeric value only when this is not
the first successful trade (at least one trade executed before) and the
previous post-trade valuation is positive, and not-applicable (`none`)
otherwise — in particular for the first trade.  Spec-side definition, for
comparison with the code's always-numeric field. -/
def periodReturnSpec (tradesBefore : Nat) (lastValuation preTradeValue : ℚ) :
    Option ℚ :=
  if 1 ≤ tradesBefore ∧ 0 < lastValuation then
    some ((preTradeValue - lastValuation) / lastValuation * 100)
  else none

/-- Relation between consecutive performance records: the later record's
period return marks the previously-held units
(`(totalUnits - unitsBought) * nav` is the pre-trade value) against the
earlier record's post-SIP value, defaulting to `0` when that value is not
positive. -/
def periodStep (a b : PerfRecord) : Prop :=
  b.periodReturnPct =
    if 0 < a.valueAfterSip then
      ((b.totalUnits - b.unitsBought) * b.nav - a.valueAfterSip) /
        a.valueAfterSip * 100
    else 0

/-- Loop invariant tying the emitted records to the state: the processed
count is the record count, the stored last valuation is the last record's
post-SIP value, the first record's period return is `0`, and consecutive
records satisfy `periodStep`. -/
def periodChainOk (st : SipState) : Prop :=
  st.processed_investments = st.monthly.length ∧
  (∀ r, st.monthly.getLast? = some r →
    st.last_value_after_sip = r.valueAfterSip) ∧
  (∀ r, st.monthly.head? = some r → r.periodReturnPct = 0) ∧
  List.Chain' periodStep st.monthly

theorem periodChainOk_init : periodChainOk initState := by
  refine ⟨rfl, ?_, ?_, List.chain'_nil⟩ <;> intro r h <;> simp [initState] at h

theorem processSipDate_periodChain (series : List (Date × ℚ)) (A : ℚ)
    (st : SipState) (d : Date) (h : periodChainOk st) :
    periodChainOk (processSipDate series A st d) := by
  obtain ⟨hlen, hlast, hhead, hchain⟩ := h
  rcases hnav : resolveNav series d with _ | ⟨ad, nav⟩
  · rw [processSipDate_none series A st d hnav]
    exact ⟨hlen, hlast, hhead, hchain⟩
  · by_cases hle : nav ≤ 0
    · rw [processSipDate_nonpos series A st d ad nav hnav hle]
      exact ⟨hlen, hlast, hhead, hchain⟩
    · rw [processSipDate_pos series A st d ad nav hnav hle]
      refine ⟨by simp [hlen], ?_, ?_, ?_⟩
      · intro r hr
        rw [List.getLast?_concat] at hr
        cases hr
        rfl
      · intro r hr
        rcases hm : st.monthly with _ | ⟨a, m2⟩
        · rw [hm] at hr
          simp only [List.nil_append, List.head?_cons] at hr
          cases hr
          have hp0 : st.processed_investments = 0 := by
            rw [hlen, hm]
            rfl
          simp [hp0]
        · rw [hm] at hr
          simp only [List.cons_append, List.head?_cons] at hr
          apply hhead
          rw [hm]
          rw [← hr]
          rfl
      · rw [List.chain'_append]
        refine ⟨hchain, List.chain'_singleton _, ?_⟩
        intro x hx y hy
        simp only [List.head?_cons, Option.mem_def, Option.some.injEq] at hy
        subst hy
        have hne : st.monthly ≠ [] := by
          intro hnil
          rw [hnil] at hx
          simp at hx
        have hlenpos : 0 < st.monthly.length := List.length_pos.mpr hne
        have hcond : 1 < st.processed_investments + 1 := by
          rw [hlen]
          omega
        have hv : st.last_value_after_sip = x.valueAfterSip :=
          hlast x (Option.mem_def.mp hx)
        unfold periodStep
        simp only
        rw [hv]
        by_cases hvp : 0 < x.valueAfterSip
        · rw [if_pos ⟨hcond, hvp⟩, if_pos hvp]
          ring_nf
        · rw [if_neg ?_, if_neg hvp]
          intro hc
          exact hvp hc.2

theorem runSip_periodChain (series : List (Date × ℚ)) (A : ℚ) :
    ∀ dates st, periodChainOk st → periodChainOk (runSip series A st dates) := by
  intro dates
  induction dates with
  | nil => intro st h; exact h
  | cons d rest ih =>
    intro st h
    rw [runSip, List.foldl_cons]
    exact ih _ (processSipDate_periodChain series A st d h)

/-- C1, amended: the emitted period_return_pct equals
`(preTradeValue - last_valuation) / last_valuation * 100` whenever the
trade is not the first successful one and the previous post-trade value is
positive, and equals the plain number `0.0` otherwise — in particular the
first trade's record carries `0.0` (rendered "0.00%"), not a distinct
not-applicable marker.  Concretely, two trades at prices 100 then 110 with
contribution 10000 emit period returns `[0, 10]`. -/
theorem period_return_policy :
    (∀ series A dates,
      (∀ r, (runSip series A initState dates).monthly.head? = some r →
        r.periodReturnPct = 0) ∧
      List.Chain' periodStep (runSip series A initState dates).monthly) ∧
    (runSip [(⟨2022,3,1⟩,(100:ℚ)), (⟨2022,4,1⟩,110)] 10000 initState
        [⟨2022,3,1⟩, ⟨2022,4,1⟩]).monthly.map (fun r => r.periodReturnPct) =
      [0, 10] := by
  constructor
  · intro series A dates
    have h := runSip_periodChain series A dates initState periodChainOk_init
    exact ⟨h.2.2.1, h.2.2.2⟩
  · norm_num [runSip, processSipDate, resolveNav, List.find?, dateLe,
      Date.key, initState]

/-- C1 counterexample: the first emitted record is not reported as
not-applicable.  Its period_return_pct is the ordinary number `0`
(main.py line 174 initializes it to `0.0`, and the N/A rendering at line
313 fires only on NaN, which a guarded division never produces) — exactly
the value a genuinely flat period also emits, while the spec-side
`periodReturnSpec` yields `none` (not-applicable) for a first trade.  Two
trades at the constant price 100 emit `[some 0, some 0]`. -/
theorem period_return_counterexample :
    (runSip [(⟨2022,3,1⟩,(100:ℚ)), (⟨2022,4,1⟩,100)] 10000 initState
        [⟨2022,3,1⟩, ⟨2022,4,1⟩]).monthly.map
        (fun r => some r.periodReturnPct) = [some 0, some 0] ∧
    periodReturnSpec 0 0 0 = none ∧
    periodReturnSpec 1 10000 10000 = some 0 := by
  refine ⟨?_, by norm_num [periodReturnSpec], by norm_num [periodReturnSpec]⟩
  norm_num [runSip, processSipDate, resolveNav, List.find?, dateLe,
    Date.key, initState]

/-- Witness for C1's amended theorem on the concrete two-trade run. -/
theorem period_return_policy_witness :
    (runSip [(⟨2022,3,1⟩,(100:ℚ)), (⟨2022,4,1⟩,110)] 10000 initState
        [⟨2022,3,1⟩, ⟨2022,4,1⟩]).monthly.head? =
      some ⟨⟨2022,3,1⟩, 100, 100, 100, 10000, 0⟩ ∧
    (⟨⟨2022,3,1⟩, 100, 100, 100, 10000, 0⟩ : PerfRecord).periodReturnPct = 0 := by
  have hh : (runSip [(⟨2022,3,1⟩,(100:ℚ)), (⟨2022,4,1⟩,110)] 10000 initState
      [⟨2022,3,1⟩, ⟨2022,4,1⟩]).monthly.head? =
      some ⟨⟨2022,3,1⟩, 100, 100, 100, 10000, 0⟩ := by
    norm_num [runSip, processSipDate, resolveNav, List.find?, dateLe,
      Date.key, initState]
  exact ⟨hh, (period_return_policy.1 [(⟨2022,3,1⟩,(100:ℚ)), (⟨2022,4,1⟩,110)]
    10000 [⟨2022,3,1⟩, ⟨2022,4,1⟩]).1 _ hh⟩

/-- An element returned by `getLast?` belongs to the list. -/
theorem getLast?_mem_list {α : Type} (l : List α) (a : α)
    (h : l.getLast? = some a) : a ∈ l := by
  induction l with
  | nil => simp at h
  | cons x m ih =>
    cases m with
    | nil =>
      simp only [List.getLast?_singleton, Option.some.injEq] at h
      subst h
      exact List.mem_singleton_self _
    | cons y m2 =>
      rw [List.getLast?_cons_cons] at h
      exact List.mem_cons_of_mem x (ih h)

/-- In a list sorted by date, the last element is on or after every
element. -/
theorem getLast?_ge_of_sorted (l : List (Date × ℚ))
    (hs : l.Pairwise (fun a b => dateLe a.1 b.1 = true)) (e : Date × ℚ)
    (he : l.getLast? = some e) : ∀ x ∈ l, dateLe x.1 e.1 = true := by
  induction l with
  | nil => simp at he
  | cons a m ih =>
    rw [List.pairwise_cons] at hs
    intro x hx
    cases m with
    | nil =>
      simp only [List.getLast?_singleton, Option.some.injEq] at he
      subst he
      rcases List.mem_singleton.mp hx with rfl
      exact dateLe_refl _
    | cons b m2 =>
      rw [List.getLast?_cons_cons] at he
      rcases List.mem_cons.mp hx with rfl | hxm
      · exact hs.1 e (getLast?_mem_list (b :: m2) e he)
      · exact ih hs.2 he x hxm

/-- C4: on a sorted series, the final valuation uses the last entry dated
on or before the target end date whenever one exists; with no such entry
it falls back to the series' very last entry; and the run's final value is
`total_units * final_nav` at exactly that entry. -/
theorem final_valuation_correct :
    (∀ series endD e, seriesSorted series →
      finalNavEntry series endD = some e →
      (∃ x ∈ series, dateLe x.1 endD = true) →
      e ∈ series ∧ dateLe e.1 endD = true ∧
        ∀ x ∈ series, dateLe x.1 endD = true → dateLe x.1 e.1 = true) ∧
    (∀ series endD, (∀ x ∈ series, ¬ dateLe x.1 endD = true) →
      finalNavEntry series endD = series.getLast?) ∧
    (∀ series A sy sm ey em day res,
      runSipProgram series A sy sm ey em day = some res →
      res.final_value = res.total_units * res.final_nav ∧
      finalNavEntry series ⟨ey, em, monthrange ey em⟩ =
        some (res.final_nav_date, res.final_nav)) := by
  refine ⟨?_, ?_, ?_⟩
  · intro series endD e hs hfe hex
    rcases hfl : (series.filter (fun p => dateLe p.1 endD)).getLast? with _ | e2
    · exfalso
      rw [List.getLast?_eq_none_iff, List.filter_eq_nil_iff] at hfl
      obtain ⟨x, hx, hxle⟩ := hex
      exact hfl x hx hxle
    · have he2 : e = e2 := by
        unfold finalNavEntry at hfe
        rw [hfl] at hfe
        exact (Option.some.inj hfe).symm
      subst he2
      have hmemf := getLast?_mem_list _ _ hfl
      have hmem := (List.mem_filter.mp hmemf).1
      have hle := (List.mem_filter.mp hmemf).2
      refine ⟨hmem, hle, ?_⟩
      intro x hx hxle
      exact getLast?_ge_of_sorted _ (List.Pairwise.filter _ hs) _ hfl x
        (List.mem_filter.mpr ⟨hx, hxle⟩)
  · intro series endD h
    have hfl : series.filter (fun p => dateLe p.1 endD) = [] :=
      List.filter_eq_nil_iff.mpr h
    unfold finalNavEntry
    rw [hfl]
    rfl
  · intro series A sy sm ey em day res hres
    simp only [runSipProgram] at hres
    split at hres
    · cases hres
    · split at hres
      · cases hres
      · split at hres
        · cases hres
        · cases hres
          exact ⟨rfl, by assumption⟩

/-- Witness for C4 at the two-entry series of the resolver example with
end date 2022-03-31. -/
theorem final_valuation_correct_witness :
    seriesSorted [(⟨2022,3,3⟩, (100:ℚ)), (⟨2022,3,10⟩, 105)] ∧
    ((⟨2022,3,10⟩, (105:ℚ)) ∈ [((⟨2022,3,3⟩:Date), (100:ℚ)), (⟨2022,3,10⟩, 105)] ∧
      dateLe ⟨2022,3,10⟩ ⟨2022,3,31⟩ = true ∧
      ∀ x ∈ [((⟨2022,3,3⟩:Date), (100:ℚ)), (⟨2022,3,10⟩, 105)],
        dateLe x.1 ⟨2022,3,31⟩ = true → dateLe x.1 ⟨2022,3,10⟩ = true) :=
  ⟨by decide, final_valuation_correct.1
    [(⟨2022,3,3⟩, (100:ℚ)), (⟨2022,3,10⟩, 105)] ⟨2022,3,31⟩
    (⟨2022,3,10⟩, (105:ℚ)) (by decide) (by decide)
    ⟨(⟨2022,3,3⟩, (100:ℚ)), by decide⟩⟩

/-- C7: once a first investment exists (which holds on every completed
run), the simplified CAGR is reported as not computable exactly when
`total_investment <= 0`, `final_value <= 0`, or the duration in years is
not positive — in particular when the first investment date equals the
final price date — and no exception is raised (`cagr` is total); in the
computable case it equals
`((final_value / total_investment) ** (1 / years) - 1) * 100` with
`years = (final_price_date - first_investment_date).days / 365.25`. -/
theorem cagr_policy :
    (∀ ti fv fd finalD, cagr ti fv (some fd) finalD = none ↔
      (ti ≤ 0 ∨ fv ≤ 0 ∨ investmentDurationYears fd finalD ≤ 0)) ∧
    (∀ ti fv fd finalD, 0 < ti → 0 < fv →
      0 < investmentDurationYears fd finalD →
      cagr ti fv (some fd) finalD =
        some ((Real.rpow ((fv : ℝ) / (ti : ℝ))
          (((investmentDurationYears fd finalD : ℚ) : ℝ))⁻¹ - 1) * 100)) ∧
    (∀ ti fv fd, cagr ti fv (some fd) fd = none) := by
  have hnone : ∀ ti fv fd finalD, cagr ti fv (some fd) finalD = none ↔
      (ti ≤ 0 ∨ fv ≤ 0 ∨ investmentDurationYears fd finalD ≤ 0) := by
    intro ti fv fd finalD
    show (if 0 < ti ∧ 0 < fv then
        if 0 < investmentDurationYears fd finalD then
          some ((Real.rpow ((fv : ℝ) / (ti : ℝ))
            (((investmentDurationYears fd finalD : ℚ) : ℝ))⁻¹ - 1) * 100)
        else none
      else none) = none ↔ _
    constructor
    · intro h
      by_cases h1 : 0 < ti ∧ 0 < fv
      · rw [if_pos h1] at h
        by_cases h2 : 0 < investmentDurationYears fd finalD
        · rw [if_pos h2] at h
          cases h
        · exact Or.inr (Or.inr (le_of_not_lt h2))
      · rcases not_and_or.mp h1 with h2 | h2
        · exact Or.inl (le_of_not_lt h2)
        · exact Or.inr (Or.inl (le_of_not_lt h2))
    · intro h
      rcases h with h | h | h
      · rw [if_neg]
        intro hc
        exact absurd hc.1 (not_lt.mpr h)
      · rw [if_neg]
        intro hc
        exact absurd hc.2 (not_lt.mpr h)
      · by_cases h1 : 0 < ti ∧ 0 < fv
        · rw [if_pos h1, if_neg (not_lt.mpr h)]
        · rw [if_neg h1]
  refine ⟨hnone, ?_, ?_⟩
  · intro ti fv fd finalD h1 h2 h3
    show (if 0 < ti ∧ 0 < fv then
        if 0 < investmentDurationYears fd finalD then
          some ((Real.rpow ((fv : ℝ) / (ti : ℝ))
            (((investmentDurationYears fd finalD : ℚ) : ℝ))⁻¹ - 1) * 100)
        else none
      else none) = _
    rw [if_pos ⟨h1, h2⟩, if_pos h3]
  · intro ti fv fd
    rw [hnone]
    refine Or.inr (Or.inr ?_)
    unfold investmentDurationYears
    simp

/-- Witness for C7: a 10000 → 11000 position held from 2022-03-01 to
2023-03-01 (365 days) has a computable CAGR. -/
theorem cagr_policy_witness :
    (0:ℚ) < 10000 ∧ (0:ℚ) < 11000 ∧
    0 < investmentDurationYears ⟨2022,3,1⟩ ⟨2023,3,1⟩ ∧
    cagr 10000 11000 (some ⟨2022,3,1⟩) ⟨2023,3,1⟩ =
      some ((Real.rpow ((11000 : ℝ) / (10000 : ℝ))
        (((investmentDurationYears ⟨2022,3,1⟩ ⟨2023,3,1⟩ : ℚ) : ℝ))⁻¹ - 1) * 100) := by
  have hy : 0 < investmentDurationYears ⟨2022,3,1⟩ ⟨2023,3,1⟩ := by
    norm_num [investmentDurationYears, toRD]
  exact ⟨by norm_num, by norm_num, hy,
    cagr_policy.2.1 10000 11000 ⟨2022,3,1⟩ ⟨2023,3,1⟩ (by norm_num) (by norm_num) hy⟩

/-- C9: two schedule dates that resolve forward to the same series entry
each execute as a separate trade at the same executed date and price — the
entry is consumed twice, with both contributions counted in the invested
total, both unit purchases accumulated, and both cash flows appended. -/
theorem duplicate_resolution_trades :
    ∀ series A st s1 s2 d nav, resolveNav series s1 = some (d, nav) →
      resolveNav series s2 = some (d, nav) → 0 < nav →
      (runSip series A st [s1, s2]).processed_investments =
          st.processed_investments + 2 ∧
      (runSip series A st [s1, s2]).total_investment =
          st.total_investment + A + A ∧
      (runSip series A st [s1, s2]).total_units =
          st.total_units + A / nav + A / nav ∧
      (runSip series A st [s1, s2]).transactions =
          st.transactions ++ [(d, -A), (d, -A)] := by
  intro series A st s1 s2 d nav h1 h2 hpos
  have hn : ¬ nav ≤ 0 := not_le.mpr hpos
  simp only [runSip, List.foldl_cons, List.foldl_nil]
  rw [processSipDate_pos series A st s1 d nav h1 hn]
  rw [processSipDate_pos series A _ s2 d nav h2 hn]
  refine ⟨rfl, rfl, rfl, ?_⟩
  simp

/-- Witness for C9: schedule dates 2022-03-01 and 2022-03-05 both resolve
to the single series entry (2022-03-10, 100). -/
theorem duplicate_resolution_trades_witness :
    (runSip [(⟨2022,3,10⟩, (100:ℚ))] 10000 initState
        [⟨2022,3,1⟩, ⟨2022,3,5⟩]).processed_investments =
      initState.processed_investments + 2 ∧
    (runSip [(⟨2022,3,10⟩, (100:ℚ))] 10000 initState
        [⟨2022,3,1⟩, ⟨2022,3,5⟩]).total_investment =
      initState.total_investment + 10000 + 10000 ∧
    (runSip [(⟨2022,3,10⟩, (100:ℚ))] 10000 initState
        [⟨2022,3,1⟩, ⟨2022,3,5⟩]).total_units =
      initState.total_units + 10000 / 100 + 10000 / 100 ∧
    (runSip [(⟨2022,3,10⟩, (100:ℚ))] 10000 initState
        [⟨2022,3,1⟩, ⟨2022,3,5⟩]).transactions =
      initState.transactions ++ [(⟨2022,3,10⟩, -10000), (⟨2022,3,10⟩, -10000)] :=
  duplicate_resolution_trades [(⟨2022,3,10⟩, (100:ℚ))] 10000 initState
    ⟨2022,3,1⟩ ⟨2022,3,5⟩ ⟨2022,3,10⟩ 100 (by decide) (by decide) (by norm_num)

/-- The tuple order used by the XIRR sort is transitive. -/
theorem txLe_trans (a b c : Date × ℚ) (h1 : txLe a b = true)
    (h2 : txLe b c = true) : txLe a c = true := by
  simp only [txLe, dateLt, Bool.or_eq_true, Bool.and_eq_true, beq_iff_eq,
    decide_eq_true_eq] at h1 h2 ⊢
  rcases h1 with h1 | ⟨h1k, h1q⟩ <;> rcases h2 with h2 | ⟨h2k, h2q⟩
  · exact Or.inl (by omega)
  · exact Or.inl (by omega)
  · exact Or.inl (by omega)
  · exact Or.inr ⟨by omega, le_trans h1q h2q⟩

/-- The tuple order used by the XIRR sort is total. -/
theorem txLe_total (a b : Date × ℚ) : (txLe a b || txLe b a) = true := by
  simp only [txLe, dateLt, Bool.or_eq_true, Bool.and_eq_true, beq_iff_eq,
    decide_eq_true_eq]
  rcases Nat.lt_trichotomy a.1.key b.1.key with h | h | h
  · exact Or.inl (Or.inl h)
  · rcases le_total a.2 b.2 with hq | hq
    · exact Or.inl (Or.inr ⟨h, hq⟩)
    · exact Or.inr (Or.inr ⟨h.symm, hq⟩)
  · exact Or.inr (Or.inl h)

/-- A ledger pairwise ordered by the tuple order passes the code's date
monotonicity test. -/
theorem datesMonotone_of_pairwise (l : List (Date × ℚ))
    (h : l.Pairwise (fun a b => txLe a b = true)) : datesMonotone l = true := by
  induction l with
  | nil => rfl
  | cons a m ih =>
    rw [List.pairwise_cons] at h
    cases m with
    | nil => rfl
    | cons b m2 =>
      show (dateLe a.1 b.1 && datesMonotone (b :: m2)) = true
      rw [Bool.and_eq_true]
      refine ⟨?_, ih h.2⟩
      have hab := h.1 b (List.mem_cons_self b m2)
      simp only [txLe, dateLt, Bool.or_eq_true, Bool.and_eq_true, beq_iff_eq,
        decide_eq_true_eq] at hab
      simp only [dateLe, decide_eq_true_eq]
      rcases hab with h2 | ⟨h2, _⟩ <;> omega

/-- The ledger handed to the solver is a permutation of the constructed
ledger (each amount stays with its date). -/
theorem normalizeLedger_perm (tx : List (Date × ℚ)) :
    (normalizeLedger tx).Perm tx := by
  unfold normalizeLedger
  split
  · exact List.Perm.refl tx
  · exact List.mergeSort_perm tx txLe

/-- The ledger handed to the solver is non-decreasing in date. -/
theorem normalizeLedger_monotone (tx : List (Date × ℚ)) :
    datesMonotone (normalizeLedger tx) = true := by
  unfold normalizeLedger
  split
  · assumption
  · exact datesMonotone_of_pairwise _
      (List.sorted_mergeSort txLe_trans txLe_total tx)

/-- Over a run from the initial state, every constructed cash flow before
the redemption is a contribution of exactly `-A`. -/
theorem runSip_transactions_amounts (series : List (Date × ℚ)) (A : ℚ) :
    ∀ dates st, (∀ x ∈ st.transactions, x.2 = -A) →
      ∀ x ∈ (runSip series A st dates).transactions, x.2 = -A := by
  intro dates
  induction dates with
  | nil => intro st h; exact h
  | cons d rest ih =>
    intro st h
    rw [runSip, List.foldl_cons]
    apply ih
    rcases hnav : resolveNav series d with _ | ⟨ad, nav⟩
    · rw [processSipDate_none series A st d hnav]
      exact h
    · by_cases hle : nav ≤ 0
      · rw [processSipDate_nonpos series A st d ad nav hnav hle]
        exact h
      · rw [processSipDate_pos series A st d ad nav hnav hle]
        intro x hx
        simp only [List.mem_append, List.mem_singleton] at hx
        rcases hx with hx | rfl
        · exact h x hx
        · rfl

/-- The loop appends exactly one cash flow per successful trade. -/
theorem runSip_transactions_length (series : List (Date × ℚ)) (A : ℚ) :
    ∀ dates st, (runSip series A st dates).transactions.length =
      st.transactions.length + (executedNavs series dates).length := by
  intro dates
  induction dates with
  | nil => simp [runSip, executedNavs]
  | cons d rest ih =>
    intro st
    simp only [runSip] at ih
    rw [runSip, List.foldl_cons]
    rcases hnav : resolveNav series d with _ | ⟨ad, nav⟩
    · rw [processSipDate_none series A st d hnav,
        executedNavs_cons_none series d rest hnav]
      exact ih st
    · by_cases hle : nav ≤ 0
      · rw [processSipDate_nonpos series A st d ad nav hnav hle,
          executedNavs_cons_nonpos series d ad nav rest hnav hle]
        exact ih st
      · rw [processSipDate_pos series A st d ad nav hnav hle,
          executedNavs_cons_pos series d ad nav rest hnav hle]
        rw [ih]
        simp only [List.length_append, List.length_singleton, List.length_cons,
          List.length_nil]
        omega

/-- Every executed NAV is positive: the loop's own guard filters the rest. -/
theorem executedNavs_pos (series : List (Date × ℚ)) (dates : List Date) :
    ∀ nav ∈ executedNavs series dates, 0 < nav := by
  intro nav h
  unfold executedNavs at h
  rw [List.mem_filterMap] at h
  obtain ⟨d, _, hd⟩ := h
  rcases hr : resolveNav series d with _ | ⟨ad, v⟩
  · rw [hr] at hd
    cases hd
  · rw [hr] at hd
    by_cases hv : v ≤ 0
    · simp [hv] at hd
    · simp [hv] at hd
      subst hd
      exact lt_of_not_le hv

/-- The entry used for final valuation belongs to the series. -/
theorem finalNavEntry_mem (series : List (Date × ℚ)) (endD : Date)
    (e : Date × ℚ) (h : finalNavEntry series endD = some e) : e ∈ series := by
  unfold finalNavEntry at h
  rcases hfl : (series.filter (fun p => dateLe p.1 endD)).getLast? with _ | e2
  · rw [hfl] at h
    exact getLast?_mem_list _ _ h
  · rw [hfl] at h
    cases h
    exact (List.mem_filter.mp (getLast?_mem_list _ _ hfl)).1

/-- On every completed run over a positive price series with a positive
contribution, the constructed ledger has more than one cash flow and
carries both a negative contribution and the positive terminal
redemption. -/
theorem run_ledger_opposite_signs (series : List (Date × ℚ)) (A : ℚ)
    (sy sm ey em day : Nat) (res : SipResult)
    (hpos : ∀ e ∈ series, 0 < e.2) (hA : 0 < A)
    (hres : runSipProgram series A sy sm ey em day = some res) :
    1 < res.transactions.length ∧
    (∃ x ∈ res.transactions, x.2 < 0) ∧
    (∃ y ∈ res.transactions, 0 < y.2) := by
  simp only [runSipProgram] at hres
  split at hres
  · cases hres
  · rename_i hne
    split at hres
    · cases hres
    · rename_i hproc
      split at hres
      · cases hres
      · rename_i fd fnav hfin
        cases hres
        have hlen := runSip_transactions_length series A
          (generate_sip_dates sy sm ey em day) initState
        have htot := runSip_totals series A
          (generate_sip_dates sy sm ey em day) initState
        set st := runSip series A initState (generate_sip_dates sy sm ey em day)
          with hst
        have hex : 0 < (executedNavs series (generate_sip_dates sy sm ey em day)).length := by
          rcases Nat.eq_zero_or_pos
            (executedNavs series (generate_sip_dates sy sm ey em day)).length with h0 | h0
          · exfalso
            apply hproc
            rw [htot.2.2, h0]
            rfl
          · exact h0
        have hlen2 : 1 ≤ st.transactions.length := by
          rw [hlen]
          simp only [initState]
          omega
        have hunits : 0 < st.total_units := by
          rw [htot.2.1]
          simp only [initState]
          rw [zero_add]
          apply List.sum_pos
          · intro q hq
            rw [List.mem_map] at hq
            obtain ⟨nav, hnav, rfl⟩ := hq
            exact div_pos hA (executedNavs_pos series _ nav hnav)
          · intro hnil
            rw [List.map_eq_nil_iff] at hnil
            rw [hnil] at hex
            simp at hnil hex
        have hfnav : 0 < fnav := hpos (fd, fnav) (finalNavEntry_mem series _ _ hfin)
        refine ⟨?_, ?_, ?_⟩
        · simp only [List.length_append, List.length_singleton]
          omega
        · obtain ⟨x, hx⟩ := List.exists_mem_of_ne_nil st.transactions
            (by intro h0; rw [h0] at hlen2; simp at hlen2)
          refine ⟨x, List.mem_append_left _ hx, ?_⟩
          have := runSip_transactions_amounts series A
            (generate_sip_dates sy sm ey em day) initState
            (by intro y hy; simp [initState] at hy) x hx
          rw [this]
          linarith
        · refine ⟨(fd, st.total_units * fnav), List.mem_append_right _
            (List.mem_singleton_self _), ?_⟩
          exact mul_pos hunits hfnav

/-- C8: the ledger handed to the solver is a permutation of the
constructed cash-flow ledger sorted into non-decreasing date order (the
sort runs only when the dates are not already monotone, and carries the
amounts with their dates); solver failure or non-convergence is reported
as not computable (`none`); and the attempt is made only with more than
one cash flow, which on every completed run over a positive price series
with a positive contribution carries at least two flows of opposite
sign. -/
theorem xirr_preparation_correct :
    (∀ tx : List (Date × ℚ), 1 < tx.length →
      xirrInput tx = some (normalizeLedger tx) ∧
      (normalizeLedger tx).Perm tx ∧
      datesMonotone (normalizeLedger tx) = true ∧
      (datesMonotone tx = true → normalizeLedger tx = tx)) ∧
    (∀ tx : List (Date × ℚ), ¬ 1 < tx.length → xirrInput tx = none) ∧
    (∀ solve tx, solve (normalizeLedger tx) = none →
      xirrResult solve tx = none) ∧
    (∀ series A sy sm ey em day res, (∀ e ∈ series, 0 < e.2) → 0 < A →
      runSipProgram series A sy sm ey em day = some res →
      xirrInput res.transactions = some (normalizeLedger res.transactions) ∧
      (∃ x ∈ res.transactions, x.2 < 0) ∧
      (∃ y ∈ res.transactions, 0 < y.2)) := by
  refine ⟨?_, ?_, ?_, ?_⟩
  · intro tx h
    refine ⟨?_, normalizeLedger_perm tx, normalizeLedger_monotone tx, ?_⟩
    · unfold xirrInput
      rw [if_pos h]
    · intro hm
      unfold normalizeLedger
      rw [if_pos hm]
  · intro tx h
    unfold xirrInput
    rw [if_neg h]
  · intro solve tx hs
    unfold xirrResult
    rcases hin : xirrInput tx with _ | l
    · rfl
    · have hl : l = normalizeLedger tx := by
        unfold xirrInput at hin
        by_cases h : 1 < tx.length
        · rw [if_pos h] at hin
          exact (Option.some.inj hin).symm
        · rw [if_neg h] at hin
          cases hin
      simp only [hin, hl, hs]
  · intro series A sy sm ey em day res hpos hA hres
    have h := run_ledger_opposite_signs series A sy sm ey em day res hpos hA hres
    refine ⟨?_, h.2.1, h.2.2⟩
    unfold xirrInput
    rw [if_pos h.1]

set_option maxRecDepth 8000 in
/-- Witness for C8 on a completed one-trade run: the attempt is made and
the ledger holds a negative contribution and a positive redemption. -/
theorem xirr_preparation_correct_witness :
    xirrInput [((⟨2022,3,5⟩ : Date), (-10000:ℚ)), (⟨2022,3,5⟩, 10000)] =
      some (normalizeLedger [((⟨2022,3,5⟩ : Date), (-10000:ℚ)), (⟨2022,3,5⟩, 10000)]) ∧
    (∃ x ∈ [((⟨2022,3,5⟩ : Date), (-10000:ℚ)), (⟨2022,3,5⟩, 10000)], x.2 < 0) ∧
    (∃ y ∈ [((⟨2022,3,5⟩ : Date), (-10000:ℚ)), (⟨2022,3,5⟩, 10000)], 0 < y.2) := by
  have hres : runSipProgram [(⟨2022,3,5⟩,(100:ℚ))] 10000 2022 3 2022 3 1 =
      some ⟨100, 10000, 1, [⟨⟨2022,3,5⟩,100,100,100,10000,0⟩], ⟨2022,3,5⟩, 100,
        10000, [(⟨2022,3,5⟩,-10000),(⟨2022,3,5⟩,10000)], some ⟨2022,3,5⟩⟩ := by
    have hgen : generate_sip_dates 2022 3 2022 3 1 = [⟨2022,3,1⟩] := by decide
    norm_num [runSipProgram, hgen, runSip, processSipDate, resolveNav,
      List.find?, dateLe, Date.key, initState, finalNavEntry, monthrange, isLeap]
  exact xirr_preparation_correct.2.2.2 [(⟨2022,3,5⟩,(100:ℚ))] 10000 2022 3 2022 3 1
    ⟨100, 10000, 1, [⟨⟨2022,3,5⟩,100,100,100,10000,0⟩], ⟨2022,3,5⟩, 100, 10000,
      [(⟨2022,3,5⟩,-10000),(⟨2022,3,5⟩,10000)], some ⟨2022,3,5⟩⟩
    (by norm_num) (by norm_num) hres

/-- The cash flows the loop constructs, as a direct function of the
schedule: one `(executed date, -amount)` entry per successful trade. -/
def executedTx (series : List (Date × ℚ)) (A : ℚ) (dates : List Date) :
    List (Date × ℚ) :=
  dates.filterMap (fun d =>
    match resolveNav series d with
    | none => none
    | some (ad, nav) => if nav ≤ 0 then none else some (ad, -A))

/-- The loop's transaction list is the initial one followed by the
constructed cash flows. -/
theorem runSip_transactions_eq (series : List (Date × ℚ)) (A : ℚ) :
    ∀ dates st, (runSip series A st dates).transactions =
      st.transactions ++ executedTx series A dates := by
  intro dates
  induction dates with
  | nil => simp [runSip, executedTx]
  | cons d rest ih =>
    intro st
    simp only [runSip] at ih
    rw [runSip, List.foldl_cons]
    rcases hnav : resolveNav series d with _ | ⟨ad, nav⟩
    · rw [processSipDate_none series A st d hnav]
      rw [ih]
      unfold executedTx
      simp [hnav]
    · by_cases hle : nav ≤ 0
      · rw [processSipDate_nonpos series A st d ad nav hnav hle]
        rw [ih]
        unfold executedTx
        simp [hnav, hle]
      · rw [processSipDate_pos series A st d ad nav hnav hle]
        rw [ih]
        unfold executedTx
        simp [hnav, hle]

/-- Forward resolution is monotone over a sorted series: a later request
never resolves to an earlier entry. -/
theorem resolveNav_monotone (series : List (Date × ℚ))
    (hs : seriesSorted series) (s1 s2 : Date) (h12 : dateLe s1 s2 = true)
    (e1 e2 : Date × ℚ) (h1 : resolveNav series s1 = some e1)
    (h2 : resolveNav series s2 = some e2) : dateLe e1.1 e2.1 = true := by
  have hmin := resolveNav_sorted_min series s1 e1 hs h1
  have h2b : List.find? (fun p => dateLe s2 p.1) series = some e2 := h2
  have h2mem : e2 ∈ series := List.mem_of_find?_eq_some h2b
  have h2p : dateLe s2 e2.1 = true := by simpa using List.find?_some h2b
  exact hmin.2.2 e2 h2mem (dateLe_trans h12 h2p)

/-- Unpacking one step of the cash-flow construction. -/
theorem executedTx_f_eq (series : List (Date × ℚ)) (A : ℚ) (d : Date)
    (b : Date × ℚ)
    (h : (match resolveNav series d with
      | none => none
      | some (ad, nav) => if nav ≤ 0 then none else some (ad, -A)) = some b) :
    ∃ nav, resolveNav series d = some (b.1, nav) ∧ b.2 = -A := by
  rcases hr : resolveNav series d with _ | ⟨ad, nav⟩
  · rw [hr] at h
    cases h
  · rw [hr] at h
    by_cases hv : nav ≤ 0
    · simp [hv] at h
    · simp [hv] at h
      subst h
      exact ⟨nav, by simp [hr]⟩

/-- Cash flows built from a non-decreasing schedule over a sorted series
come out non-decreasing in date. -/
theorem executedTx_pairwise (series : List (Date × ℚ)) (A : ℚ)
    (hs : seriesSorted series) (dates : List Date)
    (hd : dates.Pairwise (fun a b => dateLe a b = true)) :
    (executedTx series A dates).Pairwise (fun a b => dateLe a.1 b.1 = true) := by
  unfold executedTx
  rw [List.pairwise_filterMap]
  refine hd.imp ?_
  intro a b hab x hx y hy
  obtain ⟨nav1, hr1, _⟩ := executedTx_f_eq series A a x hx
  obtain ⟨nav2, hr2, _⟩ := executedTx_f_eq series A b y hy
  simpa using resolveNav_monotone series hs a b hab (x.1, nav1) (y.1, nav2) hr1 hr2

/-- A ledger pairwise non-decreasing in date passes the code's
monotonicity test. -/
theorem datesMonotone_of_pairwise_dates (l : List (Date × ℚ))
    (h : l.Pairwise (fun a b => dateLe a.1 b.1 = true)) :
    datesMonotone l = true := by
  induction l with
  | nil => rfl
  | cons a m ih =>
    rw [List.pairwise_cons] at h
    cases m with
    | nil => rfl
    | cons b m2 =>
      show (dateLe a.1 b.1 && datesMonotone (b :: m2)) = true
      rw [Bool.and_eq_true]
      exact ⟨h.1 b (List.mem_cons_self b m2), ih h.2⟩

/-- Every generated schedule is pairwise non-decreasing. -/
theorem generate_sip_dates_pairwise (sy sm ey em day : Nat) :
    (generate_sip_dates sy sm ey em day).Pairwise
      (fun a b => dateLe a b = true) := by
  have hch : List.Chain' (fun a b => dateLt a b = true)
      (generate_sip_dates sy sm ey em day) :=
    genDatesAux_chain _ _ _ day (le_trans (min_le_right _ _) (monthrange_le _ _))
  haveI : IsTrans Date (fun a b => dateLt a b = true) :=
    ⟨fun a b c h1 h2 => by
      simp only [dateLt, decide_eq_true_eq] at h1 h2 ⊢
      omega⟩
  have hp := List.chain'_iff_pairwise.mp hch
  exact hp.imp (fun h => by
    simp only [dateLt, dateLe, decide_eq_true_eq] at h ⊢
    omega)

/-- C10: contributions enter the ledger in non-decreasing executed-date
order (forward resolution over a non-decreasing schedule is monotone, and
every generated schedule is such), but the terminal redemption appended
last can carry an earlier date, so the assembled ledger need not be
chronological and the pre-XIRR sort branch is reachable: with series
[(2022-03-05, 100), (2022-05-03, 100)] over March–April 2022 the run's
ledger fails the monotonicity test, in which case the solver input is the
sorted ledger. -/
theorem ledger_order :
    (∀ series A dates, seriesSorted series →
      dates.Pairwise (fun a b => dateLe a b = true) →
      datesMonotone (runSip series A initState dates).transactions = true) ∧
    (∀ sy sm ey em day, (generate_sip_dates sy sm ey em day).Pairwise
      (fun a b => dateLe a b = true)) ∧
    (∀ tx : List (Date × ℚ), datesMonotone tx = false →
      normalizeLedger tx = tx.mergeSort txLe) ∧
    ((runSipProgram [(⟨2022,3,5⟩,(100:ℚ)), (⟨2022,5,3⟩,100)] 10000
        2022 3 2022 4 1).map (fun res => datesMonotone res.transactions) =
      some false) := by
  refine ⟨?_, generate_sip_dates_pairwise, ?_, ?_⟩
  · intro series A dates hs hd
    rw [runSip_transactions_eq]
    simp only [initState, List.nil_append]
    exact datesMonotone_of_pairwise_dates _ (executedTx_pairwise series A hs dates hd)
  · intro tx h
    unfold normalizeLedger
    rw [if_neg]
    simp [h]
  · have hgen : generate_sip_dates 2022 3 2022 4 1 =
        [⟨2022,3,1⟩, ⟨2022,4,1⟩] := by decide
    norm_num [runSipProgram, hgen, runSip, processSipDate, resolveNav,
      List.find?, dateLe, Date.key, initState, finalNavEntry, monthrange,
      isLeap, datesMonotone]

/-- Witness for C10 on the concrete reachability instance: sorted series,
generated schedule, and the resulting contribution prefix is monotone. -/
theorem ledger_order_witness :
    seriesSorted [(⟨2022,3,5⟩,(100:ℚ)), (⟨2022,5,3⟩,100)] ∧
    datesMonotone (runSip [(⟨2022,3,5⟩,(100:ℚ)), (⟨2022,5,3⟩,100)] 10000
      initState [⟨2022,3,1⟩, ⟨2022,4,1⟩]).transactions = true :=
  ⟨by decide, ledger_order.1 [(⟨2022,3,5⟩,(100:ℚ)), (⟨2022,5,3⟩,100)] 10000
    [⟨2022,3,1⟩, ⟨2022,4,1⟩] (by decide) (by decide)⟩
